import Mathlib

/-!
# Verification of the visualmind extraction-and-graph pipeline

Shallow embedding of `codex_code/extraction.py` and `codex_code/graph_utils.py`.
Python floats are modelled as exact rationals (`ℚ`); IEEE infinities/NaN are
outside the model (noted at `pyFloat`).  JSON payloads decoded by `json.loads`
are modelled by the inductive `JsonVal` together with an executable JSON
parser `json_loads`.  The LLM gateway (`AISuiteLLM.complete`) is modelled as a
response trace `gw : Nat → String` giving the text returned by the i-th call.
-/

set_option autoImplicit false

/-- A JSON value as produced by Python's `json.loads`: `None`, booleans,
numbers (ints and floats merged into `ℚ`), strings, lists and dicts
(association lists with unique keys, built with last-value-wins insertion
exactly as Python's dict construction does for duplicate keys). -/
inductive JsonVal where
  | null : JsonVal
  | bool (b : Bool) : JsonVal
  | num (q : ℚ) : JsonVal
  | str (s : String) : JsonVal
  | arr (items : List JsonVal) : JsonVal
  | obj (fields : List (String × JsonVal)) : JsonVal

/-- A decoded JSON object (Python dict): association list of fields. -/
abbrev Obj := List (String × JsonVal)

/-! ## Python string helpers -/

/-- The backquote character (code 96), the quote of a Markdown fence. -/
def backquote : Char := Char.ofNat 96

/-- Left brace character (code 123). -/
def lbraceChar : Char := Char.ofNat 123

/-- Right brace character (code 125). -/
def rbraceChar : Char := Char.ofNat 125

/-- ASCII whitespace stripped by Python's `str.strip()` with no argument
(space, tab, newline, carriage return, vertical tab, form feed).  Python also
strips some further Unicode whitespace; none of it occurs in this model. -/
def isPySpace (c : Char) : Bool :=
  c = ' ' || c = '\t' || c = '\n' || c = '\r' || c = '\x0b' || c = '\x0c'

/-- Drop the characters satisfying `p` from both ends of a list
(the semantics of Python's `str.strip(chars)`). -/
def stripBoth (p : Char → Bool) (l : List Char) : List Char :=
  ((l.dropWhile p).reverse.dropWhile p).reverse

/-- Python `s.strip()` (no argument): whitespace removed from both ends. -/
def pyStripWs (s : String) : String :=
  String.mk (stripBoth isPySpace s.data)

/-- Python `s.strip("\x60")`: backquotes removed from both ends. -/
def stripBackquotes (s : String) : String :=
  String.mk (stripBoth (fun c => c = backquote) s.data)

/-- The cleaning step of `_parse_json_payload`:
`raw_response.strip().strip("\x60")`. -/
def pyClean (raw : String) : String :=
  stripBackquotes (pyStripWs raw)

/-- Python `s.strip()` as used on field values in the coercion layer. -/
def pyStrip (s : String) : String := pyStripWs s

/-- Python `s.lower()`.  ASCII-faithful; the Unicode cases Python also lowers
do not occur in the inputs of this development. -/
def pyLower (s : String) : String := String.mk (s.data.map Char.toLower)

/-! ## Python `str()` on decoded JSON values -/

/-- Decimal digits of a natural number. -/
def natDigits (n : Nat) : String := toString n

/-- Rendering of a rational as Python would render the number.  Integers
render exactly; non-integral values are rendered as `num/den`, an
approximation of Python's shortest-roundtrip float repr (no verified
property depends on this rendering). -/
def numRepr (q : ℚ) : String :=
  if q.den = 1 then toString q.num else toString q.num ++ "/" ++ toString q.den

mutual

/-- Python `repr` of a decoded JSON value, used by `str()` on containers.
String quoting/escaping is approximated by always using single quotes; no
verified property depends on the container rendering. -/
def pyRepr : JsonVal → String
  | JsonVal.null => "None"
  | JsonVal.bool true => "True"
  | JsonVal.bool false => "False"
  | JsonVal.num q => numRepr q
  | JsonVal.str s => "\x27" ++ s ++ "\x27"
  | JsonVal.arr items => "[" ++ pyReprItems items ++ "]"
  | JsonVal.obj fields => "\x7b" ++ pyReprFields fields ++ "\x7d"

/-- Comma-separated `repr` of list elements. -/
def pyReprItems : List JsonVal → String
  | [] => ""
  | [x] => pyRepr x
  | x :: rest => pyRepr x ++ ", " ++ pyReprItems rest

/-- Comma-separated `repr` of dict entries. -/
def pyReprFields : List (String × JsonVal) → String
  | [] => ""
  | [f] => "\x27" ++ f.1 ++ "\x27: " ++ pyRepr f.2
  | f :: rest => "\x27" ++ f.1 ++ "\x27: " ++ pyRepr f.2 ++ ", " ++ pyReprFields rest

end

/-- Python `str()` of a decoded JSON value.  `str` returns the string itself;
everything else goes through `repr`-like rendering. -/
def pyStr : JsonVal → String
  | JsonVal.str s => s
  | JsonVal.null => "None"
  | JsonVal.bool true => "True"
  | JsonVal.bool false => "False"
  | JsonVal.num q => numRepr q
  | v => pyRepr v

/-! ## Python dict access -/

/-- Python `d.get(key, default)` on a decoded JSON object. -/
def objGet (o : Obj) (key : String) (default : JsonVal) : JsonVal :=
  match o.find? (fun f => f.1 = key) with
  | some f => f.2
  | none => default

/-! ## Python `float()` -/

/-- Take a maximal run of decimal digits. -/
def takeDigits : List Char → List Char × List Char
  | [] => ([], [])
  | c :: rest =>
      if c.isDigit then
        let (ds, r) := takeDigits rest
        (c :: ds, r)
      else ([], c :: rest)

/-- Numeric value of a digit list. -/
def digitsToNat (ds : List Char) : Nat :=
  ds.foldl (fun acc c => 10 * acc + (c.toNat - 48)) 0

/-- Parse an optional exponent suffix `e`/`E` with optional sign.  Returns the
signed exponent and the remaining characters, or `none` on a malformed
exponent. -/
def parseExponent : List Char → Option (Int × List Char)
  | [] => some (0, [])
  | c :: rest =>
      if c = 'e' || c = 'E' then
        let (sign, r1) : Int × List Char :=
          match rest with
          | '+' :: r => (1, r)
          | '-' :: r => (-1, r)
          | r => (1, r)
        let (ds, r2) := takeDigits r1
        if ds = [] then none else some (sign * Int.ofNat (digitsToNat ds), r2)
      else some (0, c :: rest)

/-- Scale a rational by a signed power of ten. -/
def scalePow10 (q : ℚ) (e : Int) : ℚ :=
  match e with
  | Int.ofNat n => q * (10 : ℚ) ^ n
  | Int.negSucc n => q / (10 : ℚ) ^ (n + 1)

/-- Python `float(s)` on a string: optional surrounding whitespace, optional
sign, then digits with an optional decimal point (`"1."`, `".5"` and
exponents are accepted).  Python additionally accepts `inf`/`nan` literals and
underscore digit separators; those denote values outside the rational model
and are treated as unconvertible here (no claim exercises them). -/
def parseFloatLit (s : String) : Option ℚ :=
  let l := stripBoth isPySpace s.data
  let (neg, l1) : Bool × List Char :=
    match l with
    | '+' :: r => (false, r)
    | '-' :: r => (true, r)
    | r => (false, r)
  let (intDs, l2) := takeDigits l1
  let (fracDs, l3) :=
    match l2 with
    | '.' :: r =>
        let (ds, r2) := takeDigits r
        (some ds, r2)
    | r => (none, r)
  if intDs = [] ∧ fracDs.getD [] = [] then none
  else
    match parseExponent l3 with
    | none => none
    | some (e, l4) =>
        if l4 ≠ [] then none
        else
          let fds := fracDs.getD []
          let mantissa : ℚ :=
            (digitsToNat intDs : ℚ) + (digitsToNat fds : ℚ) / (10 : ℚ) ^ fds.length
          let v := scalePow10 mantissa e
          some (if neg then -v else v)

/-- Python `float(value)` on a decoded JSON value: numbers pass through,
booleans become 0/1, strings are parsed as float literals, and `None`, lists
and dicts raise `TypeError` (modelled as `none`). -/
def pyFloat : JsonVal → Option ℚ
  | JsonVal.num q => some q
  | JsonVal.bool b => some (if b then 1 else 0)
  | JsonVal.str s => parseFloatLit s
  | JsonVal.null => none
  | JsonVal.arr _ => none
  | JsonVal.obj _ => none

/-- Python `min(a, b)`: `b` when `b < a`, else `a`. -/
def pyMin (a b : ℚ) : ℚ := if b < a then b else a

/-- Python `max(a, b)`: `b` when `a < b`, else `a`. -/
def pyMax (a b : ℚ) : ℚ := if a < b then b else a

/-- `_ensure_float(value, default)` from `extraction.py`: try `float(value)`,
return `default` on `TypeError`/`ValueError`, otherwise clamp with
`max(0.0, min(1.0, number))`. -/
def ensure_float (value : JsonVal) (default : ℚ) : ℚ :=
  match pyFloat value with
  | none => default
  | some number => pyMax 0 (pyMin 1 number)

/-! ## Schema types -/

/-- `Entity` dataclass from `extraction.py`. -/
structure Entity where
  name : String
  type : String
  importance : ℚ
deriving DecidableEq

/-- `Relationship` dataclass from `extraction.py`. -/
structure Relationship where
  source : String
  target : String
  relation_type : String
  weight : ℚ
deriving DecidableEq

/-! ## Coercion layer -/

/-- Deduplication key of a raw entity record: `(name.lower(), type.lower())`
computed on the stripped fields, exactly as `_coerce_entities` does. -/
def entityKeyOf (name type_ : String) : String × String :=
  (pyLower name, pyLower type_)

/-- The stripped `name` field of a raw entity record. -/
def rawName (item : Obj) : String :=
  pyStrip (pyStr (objGet item "name" (JsonVal.str "")))

/-- The stripped `type` field of a raw entity record. -/
def rawType (item : Obj) : String :=
  pyStrip (pyStr (objGet item "type" (JsonVal.str "")))

/-- The entity built from a raw record when `_coerce_entities` keeps it. -/
def candidateOf (item : Obj) : Entity :=
  { name := rawName item
    type := rawType item
    importance := ensure_float (objGet item "importance" JsonVal.null) (1/2) }

/-- The loop of `_coerce_entities`, with the `seen` set made explicit. -/
def coerce_entities_aux (seen : List (String × String)) : List Obj → List Entity
  | [] => []
  | item :: rest =>
      let name := rawName item
      let type_ := rawType item
      if name = "" then coerce_entities_aux seen rest
      else
        let key := entityKeyOf name type_
        if key ∈ seen then coerce_entities_aux seen rest
        else candidateOf item :: coerce_entities_aux (key :: seen) rest

/-- `_coerce_entities(raw_entities)` from `extraction.py`. -/
def coerce_entities (raw : List Obj) : List Entity :=
  coerce_entities_aux [] raw

/-- The set of entity names `_coerce_relationships` checks membership in
(`{entity.name for entity in valid_entities}`). -/
def entityNames (ents : List Entity) : List String :=
  ents.map Entity.name

/-- The stripped `source` field of a raw relationship record. -/
def rawSource (item : Obj) : String :=
  pyStrip (pyStr (objGet item "source" (JsonVal.str "")))

/-- The stripped `target` field of a raw relationship record. -/
def rawTarget (item : Obj) : String :=
  pyStrip (pyStr (objGet item "target" (JsonVal.str "")))

/-- The stripped `relation_type` field of a raw relationship record. -/
def rawRelationType (item : Obj) : String :=
  pyStrip (pyStr (objGet item "relation_type" (JsonVal.str "")))

/-- The relationship built from a raw record when `_coerce_relationships`
keeps it (`relation_type or "related"`, weight via `_ensure_float`). -/
def relationshipOf (item : Obj) : Relationship :=
  { source := rawSource item
    target := rawTarget item
    relation_type := if rawRelationType item = "" then "related" else rawRelationType item
    weight := ensure_float (objGet item "weight" JsonVal.null) (1/2) }

/-- `_coerce_relationships(raw_relationships, valid_entities)` from
`extraction.py`: a record is skipped when its stripped source or target is
empty or is not the name of a valid entity; the relation label defaults to
`"related"` when empty and is never itself a reason to skip. -/
def coerce_relationships (raw : List Obj) (ents : List Entity) : List Relationship :=
  match raw with
  | [] => []
  | item :: rest =>
      if rawSource item = "" ∨ rawTarget item = "" ∨
          rawSource item ∉ entityNames ents ∨ rawTarget item ∉ entityNames ents then
        coerce_relationships rest ents
      else
        relationshipOf item :: coerce_relationships rest ents

/-! ## `json.loads`

An executable JSON parser faithful to the grammar accepted by Python's
`json.loads` for the constructs this repository's payloads use: the standard
JSON value grammar with strict number syntax (no leading zeros, fraction and
exponent must carry digits), JSON whitespace, escape sequences in strings,
and rejection of trailing garbage.  `\u` escapes map their code unit through
`Char.ofNat` (surrogate-pair recombination is not modelled; no payload in
this development uses `\u`).  A failing parse models `json.JSONDecodeError`. -/

/-- JSON whitespace (space, tab, newline, carriage return). -/
def isJsonWs (c : Char) : Bool :=
  c = ' ' || c = '\t' || c = '\n' || c = '\r'

/-- Skip leading JSON whitespace. -/
def skipJsonWs : List Char → List Char
  | [] => []
  | c :: rest => if isJsonWs c then skipJsonWs rest else c :: rest

/-- Hexadecimal digit value. -/
def hexVal (c : Char) : Option Nat :=
  if '0' ≤ c ∧ c ≤ '9' then some (c.toNat - 48)
  else if 'a' ≤ c ∧ c ≤ 'f' then some (c.toNat - 87)
  else if 'A' ≤ c ∧ c ≤ 'F' then some (c.toNat - 70)
  else none

/-- Parse the remainder of a JSON string after the opening quote, returning
the decoded characters and the input after the closing quote. -/
def parseStringRest : List Char → Option (List Char × List Char)
  | [] => none
  | c :: rest =>
      if c = '"' then some ([], rest)
      else if c = '\\' then
        match rest with
        | [] => none
        | 'u' :: h1 :: h2 :: h3 :: h4 :: r2 =>
            match hexVal h1, hexVal h2, hexVal h3, hexVal h4 with
            | some a, some b, some c', some d =>
                match parseStringRest r2 with
                | some (cs, r3) =>
                    some (Char.ofNat (4096 * a + 256 * b + 16 * c' + d) :: cs, r3)
                | none => none
            | _, _, _, _ => none
        | e :: r2 =>
            let decoded : Option Char :=
              if e = '"' then some '"'
              else if e = '\\' then some '\\'
              else if e = '/' then some '/'
              else if e = 'b' then some '\x08'
              else if e = 'f' then some '\x0c'
              else if e = 'n' then some '\n'
              else if e = 'r' then some '\r'
              else if e = 't' then some '\t'
              else none
            match decoded with
            | some ch =>
                match parseStringRest r2 with
                | some (cs, r3) => some (ch :: cs, r3)
                | none => none
            | none => none
      else if c.toNat < 32 then none
      else
        match parseStringRest rest with
        | some (cs, r2) => some (c :: cs, r2)
        | none => none

/-- Parse a JSON number (strict JSON grammar: optional minus, integer part
without leading zeros, optional fraction and exponent with mandatory
digits). -/
def parseJsonNumber (l : List Char) : Option (ℚ × List Char) :=
  let (neg, l1) : Bool × List Char :=
    match l with
    | '-' :: r => (true, r)
    | r => (false, r)
  match l1 with
  | [] => none
  | c :: r =>
      if ¬ c.isDigit then none
      else
        let (intDs, l2) : List Char × List Char :=
          if c = '0' then ([c], r) else takeDigits (c :: r)
        let fracStep : Option (List Char × List Char) :=
          match l2 with
          | '.' :: r2 =>
              let (ds, r3) := takeDigits r2
              if ds = [] then none else some (ds, r3)
          | r2 => some ([], r2)
        match fracStep with
        | none => none
        | some (fracDs, l3) =>
            match parseExponent l3 with
            | none => none
            | some (e, l4) =>
                let mantissa : ℚ :=
                  (digitsToNat intDs : ℚ) +
                    (digitsToNat fracDs : ℚ) / (10 : ℚ) ^ fracDs.length
                let v := scalePow10 mantissa e
                some (if neg then -v else v, l4)

/-- Insert a parsed member into an object under construction, mirroring
Python dict construction for duplicate keys: the original position is kept,
the value is overwritten. -/
def objInsert (fields : Obj) (key : String) (v : JsonVal) : Obj :=
  if fields.any (fun f => f.1 = key) then
    fields.map (fun f => if f.1 = key then (f.1, v) else f)
  else fields ++ [(key, v)]

mutual

/-- Parse one JSON value (leading whitespace allowed); fuel bounds the
recursion depth. -/
def parseJsonValue : Nat → List Char → Option (JsonVal × List Char)
  | 0, _ => none
  | fuel + 1, l =>
      match skipJsonWs l with
      | [] => none
      | c :: rest =>
          if c = '"' then
            match parseStringRest rest with
            | some (cs, r) => some (JsonVal.str (String.mk cs), r)
            | none => none
          else if c = '[' then
            match skipJsonWs rest with
            | ']' :: r => some (JsonVal.arr [], r)
            | r => match parseJsonItems fuel r with
                   | some (items, r2) => some (JsonVal.arr items, r2)
                   | none => none
          else if c = lbraceChar then
            match skipJsonWs rest with
            | r =>
                if r.head? = some rbraceChar then some (JsonVal.obj [], r.tail)
                else match parseJsonMembers fuel [] r with
                     | some (fields, r2) => some (JsonVal.obj fields, r2)
                     | none => none
          else if c = 'n' then
            match rest with
            | 'u' :: 'l' :: 'l' :: r => some (JsonVal.null, r)
            | _ => none
          else if c = 't' then
            match rest with
            | 'r' :: 'u' :: 'e' :: r => some (JsonVal.bool true, r)
            | _ => none
          else if c = 'f' then
            match rest with
            | 'a' :: 'l' :: 's' :: 'e' :: r => some (JsonVal.bool false, r)
            | _ => none
          else if c = '-' ∨ c.isDigit then
            match parseJsonNumber (c :: rest) with
            | some (q, r) => some (JsonVal.num q, r)
            | none => none
          else none

/-- Parse the comma-separated elements of a non-empty JSON array, including
the closing bracket. -/
def parseJsonItems : Nat → List Char → Option (List JsonVal × List Char)
  | 0, _ => none
  | fuel + 1, l =>
      match parseJsonValue fuel l with
      | none => none
      | some (v, r1) =>
          match skipJsonWs r1 with
          | ',' :: r2 =>
              match parseJsonItems fuel r2 with
              | some (vs, r3) => some (v :: vs, r3)
              | none => none
          | ']' :: r2 => some ([v], r2)
          | _ => none

/-- Parse the comma-separated members of a non-empty JSON object, including
the closing brace; members accumulate with dict insertion semantics. -/
def parseJsonMembers : Nat → Obj → List Char → Option (Obj × List Char)
  | 0, _, _ => none
  | fuel + 1, acc, l =>
      match skipJsonWs l with
      | '"' :: r =>
          match parseStringRest r with
          | none => none
          | some (ks, r1) =>
              match skipJsonWs r1 with
              | ':' :: r2 =>
                  match parseJsonValue fuel r2 with
                  | none => none
                  | some (v, r3) =>
                      let acc' := objInsert acc (String.mk ks) v
                      match skipJsonWs r3 with
                      | ',' :: r4 => parseJsonMembers fuel acc' r4
                      | r4 =>
                          if r4.head? = some rbraceChar then some (acc', r4.tail)
                          else none
              | _ => none
      | _ => none

end

/-- `json.loads(s)`: parse one JSON value and require only whitespace after
it; `none` models `json.JSONDecodeError`. -/
def json_loads (s : String) : Option JsonVal :=
  match parseJsonValue (2 * s.data.length + 2) s.data with
  | some (v, r) => if skipJsonWs r = [] then some v else none
  | none => none

/-! ## The decoder and the extraction stages

The gateway (`AISuiteLLM.complete`) is modelled as a trace `gw : Nat → String`
giving the text the i-th call (0-based) returns; the prompt decoration the
retry performs ("Reminder: respond with ONLY valid JSON...") changes only the
prompts, which the trace model does not inspect.  Each operation returns its
outcome together with the number of gateway calls it made. -/

/-- Errors raised by the extraction stages.  Both are `ValueError` in the
source, distinguished by their message: `decodeFailure` embeds
`ValueError("Failed to parse JSON response: ...")` and carries the cleaned
text whose parse failed last (`None` when no attempt ran), `nonListPayload`
embeds `ValueError("... returned a non-list payload.")` with the stage's
message, and `attributeError` embeds the `AttributeError` Python would raise
when a decoded array element is not a dict. -/
inductive ExtractionError where
  | decodeFailure (lastError : Option String) : ExtractionError
  | nonListPayload (msg : String) : ExtractionError
  | attributeError : ExtractionError
deriving DecidableEq

/-- The retry loop of `_parse_json_payload`: `calls` gateway calls already
made, `remaining` attempts left, `lastError` the last parse failure.  Returns
the decoded value or the decode failure, plus the total number of gateway
calls. -/
def parse_json_payload_aux (gw : Nat → String) :
    Nat → Nat → Option String → (Except (Option String) JsonVal) × Nat
  | calls, 0, lastError => (Except.error lastError, calls)
  | calls, remaining + 1, _lastError =>
      let cleaned := pyClean (gw calls)
      match json_loads cleaned with
      | some v => (Except.ok v, calls + 1)
      | none => parse_json_payload_aux gw (calls + 1) remaining (some cleaned)

/-- `_parse_json_payload(llm, system_prompt, user_prompt, max_attempts)`. -/
def parse_json_payload (gw : Nat → String) (maxAttempts : Nat) :
    (Except (Option String) JsonVal) × Nat :=
  parse_json_payload_aux gw 0 maxAttempts none

/-- The default `max_attempts` of `_parse_json_payload` (used by both
extraction stages, which never pass the keyword). -/
def defaultMaxAttempts : Nat := 2

/-- Convert the elements of a decoded array to dicts; `none` models the
`AttributeError` raised by `item.get` when an element is not a dict. -/
def asObjs : List JsonVal → Option (List Obj)
  | [] => some []
  | JsonVal.obj fields :: rest =>
      match asObjs rest with
      | some os => some (fields :: os)
      | none => none
  | _ :: _ => none

/-- `extract_entities(text, llm)` with the gateway as a trace: decode with
the default budget, reject a non-list payload, then coerce. -/
def extract_entities_run (gw : Nat → String) :
    (Except ExtractionError (List Entity)) × Nat :=
  match parse_json_payload gw defaultMaxAttempts with
  | (Except.error e, n) => (Except.error (ExtractionError.decodeFailure e), n)
  | (Except.ok v, n) =>
      match v with
      | JsonVal.arr items =>
          match asObjs items with
          | some objs => (Except.ok (coerce_entities objs), n)
          | none => (Except.error ExtractionError.attributeError, n)
      | _ =>
          (Except.error
            (ExtractionError.nonListPayload "Entity extraction returned a non-list payload."), n)

/-- `extract_relationships(text, entities, llm)` with the gateway as a
trace. -/
def extract_relationships_run (gw : Nat → String) (entities : List Entity) :
    (Except ExtractionError (List Relationship)) × Nat :=
  match parse_json_payload gw defaultMaxAttempts with
  | (Except.error e, n) => (Except.error (ExtractionError.decodeFailure e), n)
  | (Except.ok v, n) =>
      match v with
      | JsonVal.arr items =>
          match asObjs items with
          | some objs => (Except.ok (coerce_relationships objs entities), n)
          | none => (Except.error ExtractionError.attributeError, n)
      | _ =>
          (Except.error
            (ExtractionError.nonListPayload
              "Relationship extraction returned a non-list payload."), n)

/-! ## Graph assembly (`graph_utils.build_graph`)

A `networkx.DiGraph` is modelled by its node list (insertion-ordered, unique
names, attribute dict or no attributes yet) and its edge list
(insertion-ordered, unique `(source, target)` keys).  `add_node` on an
existing name updates its attributes in place; `add_edge` inserts missing
endpoint nodes without attributes, and on an existing key updates the edge
attributes in place — exactly networkx's behaviour. -/

/-- Node attributes set by `build_graph`. -/
structure NodeAttrs where
  type : String
  importance : ℚ
deriving DecidableEq

/-- Edge attributes set by `build_graph`. -/
structure EdgeAttrs where
  relation_type : String
  weight : ℚ
deriving DecidableEq

/-- A directed graph: insertion-ordered nodes (name, optional attributes)
and insertion-ordered edges keyed by `(source, target)`. -/
structure DiGraph where
  nodes : List (String × Option NodeAttrs)
  edges : List ((String × String) × EdgeAttrs)
deriving DecidableEq

/-- `name in graph.nodes`. -/
def hasNode (g : DiGraph) (name : String) : Bool :=
  g.nodes.any (fun p => p.1 = name)

/-- The node names of a graph, in insertion order. -/
def nodeKeys (g : DiGraph) : List String :=
  g.nodes.map Prod.fst

/-- The edge keys of a graph, in insertion order. -/
def edgeKeys (g : DiGraph) : List (String × String) :=
  g.edges.map Prod.fst

/-- The attributes of the edge with the given key, if present. -/
def edgeLookup (g : DiGraph) (k : String × String) : Option EdgeAttrs :=
  (g.edges.find? (fun e => e.1 = k)).map Prod.snd

/-- How many edges carry the given key (1 or 0 in a well-formed graph). -/
def edgeCount (g : DiGraph) (k : String × String) : Nat :=
  (g.edges.filter (fun e => e.1 = k)).length

/-- `graph.add_node(name, **attrs)`: update attributes in place if the node
exists, append it otherwise. -/
def add_node (g : DiGraph) (name : String) (attrs : NodeAttrs) : DiGraph :=
  if hasNode g name then
    { g with nodes := g.nodes.map (fun p => if p.1 = name then (p.1, some attrs) else p) }
  else
    { g with nodes := g.nodes ++ [(name, some attrs)] }

/-- networkx inserts a referenced endpoint as an attribute-less node when it
is not yet present (never reached by `build_graph`, whose guard ensures both
endpoints exist). -/
def ensureNode (g : DiGraph) (name : String) : DiGraph :=
  if hasNode g name then g else { g with nodes := g.nodes ++ [(name, none)] }

/-- `graph.add_edge(source, target, **attrs)`. -/
def add_edge (g : DiGraph) (s t : String) (attrs : EdgeAttrs) : DiGraph :=
  let g1 := ensureNode (ensureNode g s) t
  if g1.edges.any (fun e => e.1 = (s, t)) then
    { g1 with edges := g1.edges.map (fun e => if e.1 = (s, t) then (e.1, attrs) else e) }
  else
    { g1 with edges := g1.edges ++ [((s, t), attrs)] }

/-- The node-insertion step of `build_graph`. -/
def buildNodeStep (g : DiGraph) (e : Entity) : DiGraph :=
  add_node g e.name ⟨e.type, e.importance⟩

/-- The edge-insertion step of `build_graph`: skip a relationship whose
source or target is not a node, otherwise add the edge. -/
def buildEdgeStep (g : DiGraph) (r : Relationship) : DiGraph :=
  if ¬ hasNode g r.source ∨ ¬ hasNode g r.target then g
  else add_edge g r.source r.target ⟨r.relation_type, r.weight⟩

/-- `build_graph(entities, relationships)` from `graph_utils.py`. -/
def build_graph (entities : List Entity) (relationships : List Relationship) : DiGraph :=
  let g := entities.foldl buildNodeStep ⟨[], []⟩
  relationships.foldl buildEdgeStep g

/-! ## Concrete inputs used by witnesses and counterexamples -/

/-- Gateway trace that always returns the fenced payload with a `json`
language tag (the scenario of spec §8). -/
def gwJsonFence : Nat → String := fun _ => "```json\n[]\n```"

/-- Gateway trace that always returns a fenced payload without a language
tag. -/
def gwPlainFence : Nat → String := fun _ => "```\n[]\n```"

/-- Gateway trace returning garbage on the first call and a valid JSON array
on the second. -/
def gwRetry : Nat → String := fun n => if n = 0 then "no json here" else "[]"

/-- Gateway trace returning a valid JSON object (not an array). -/
def gwObjPayload : Nat → String := fun _ => "\x7b\x7d"

/-- Entity "Alice" from the spec's assembly scenario. -/
def entAlice : Entity := ⟨"Alice", "person", 9/10⟩

/-- Entity "Acme Corp" from the spec's assembly scenario. -/
def entAcme : Entity := ⟨"Acme Corp", "organization", 4/5⟩

/-- A second person entity. -/
def entBob : Entity := ⟨"Bob", "person", 1/2⟩

/-- Raw entity record whose `importance` is present and numeric, equal to
0.5. -/
def recImportanceHalf : Obj :=
  [("name", JsonVal.str "Alice"), ("importance", JsonVal.num (1/2))]

/-- Raw relationship record whose target names no known entity. -/
def recGhost : Obj :=
  [("source", JsonVal.str "Alice"), ("target", JsonVal.str "Ghostville"),
   ("relation_type", JsonVal.str "knows")]

/-- Raw relationship record with a whitespace-only relation label. -/
def recWsLabel : Obj :=
  [("source", JsonVal.str "Alice"), ("target", JsonVal.str "Bob"),
   ("relation_type", JsonVal.str "   "), ("weight", JsonVal.num (7/10))]

/-- Raw relationship record whose source differs from the entity name
"Alice" only in letter case. -/
def recLowerAlice : Obj :=
  [("source", JsonVal.str "alice"), ("target", JsonVal.str "Bob"),
   ("relation_type", JsonVal.str "knows")]

/-- Relationship "Alice founded Acme Corp" from the spec's scenario. -/
def relFounded : Relationship := ⟨"Alice", "Acme Corp", "founded", 19/20⟩

/-- Relationship with an unknown endpoint from the spec's scenario. -/
def relBasedIn : Relationship := ⟨"Acme Corp", "Ghostville", "based in", 1/2⟩

/-- A second relationship on the same ordered pair as `relFounded`. -/
def relAdvises : Relationship := ⟨"Alice", "Acme Corp", "advises", 3/5⟩

/-- The dedup key of a coerced entity, as `_coerce_entities` computes it. -/
def entityKey (e : Entity) : String × String := (pyLower e.name, pyLower e.type)

/-- The candidates `_coerce_entities` would produce with deduplication
switched off: every raw record with a non-empty stripped name, in decoded
order. -/
def validCandidates (raw : List Obj) : List Entity :=
  raw.filterMap (fun item => if rawName item = "" then none else some (candidateOf item))

/-! ## Lemmas about the decoder retry loop -/

theorem parse_json_payload_aux_calls_le (gw : Nat → String) :
    ∀ (remaining calls : Nat) (le : Option String),
      (parse_json_payload_aux gw calls remaining le).2 ≤ calls + remaining := by
  intro remaining
  induction remaining with
  | zero => intro calls le; simp [parse_json_payload_aux]
  | succ r ih =>
      intro calls le
      simp only [parse_json_payload_aux]
      cases hj : json_loads (pyClean (gw calls)) with
      | some v => simp
      | none =>
          have h := ih (calls + 1) (some (pyClean (gw calls)))
          simpa using h.trans (by omega)

theorem parse_json_payload_aux_all_fail (gw : Nat → String) :
    ∀ (remaining calls : Nat) (le : Option String), 1 ≤ remaining →
      (∀ i, i < remaining → json_loads (pyClean (gw (calls + i))) = none) →
      parse_json_payload_aux gw calls remaining le =
        (Except.error (some (pyClean (gw (calls + remaining - 1)))), calls + remaining) := by
  intro remaining
  induction remaining with
  | zero => intro calls le h; omega
  | succ r ih =>
      intro calls le _ hfail
      have h0 : json_loads (pyClean (gw calls)) = none := by simpa using hfail 0 (by omega)
      simp only [parse_json_payload_aux, h0]
      cases r with
      | zero => simp [parse_json_payload_aux]
      | succ r' =>
          have hrec := ih (calls + 1) (some (pyClean (gw calls))) (by omega)
            (fun i hi => by
              have := hfail (i + 1) (by omega)
              simpa [Nat.add_assoc, Nat.add_comm 1 i] using this)
          rw [hrec]
          have e1 : calls + 1 + (r' + 1) - 1 = calls + (r' + 1 + 1) - 1 := by omega
          have e2 : calls + 1 + (r' + 1) = calls + (r' + 1 + 1) := by omega
          rw [e1, e2]

theorem parse_json_payload_aux_success (gw : Nat → String) :
    ∀ (k remaining calls : Nat) (le : Option String) (v : JsonVal), k < remaining →
      (∀ i, i < k → json_loads (pyClean (gw (calls + i))) = none) →
      json_loads (pyClean (gw (calls + k))) = some v →
      parse_json_payload_aux gw calls remaining le = (Except.ok v, calls + k + 1) := by
  intro k
  induction k with
  | zero =>
      intro remaining calls le v hk _ hs
      obtain ⟨r, rfl⟩ : ∃ r, remaining = r + 1 := ⟨remaining - 1, by omega⟩
      have hs' : json_loads (pyClean (gw calls)) = some v := by simpa using hs
      simp only [parse_json_payload_aux, hs']
  | succ k' ih =>
      intro remaining calls le v hk hfail hs
      obtain ⟨r, rfl⟩ : ∃ r, remaining = r + 1 := ⟨remaining - 1, by omega⟩
      have h0 : json_loads (pyClean (gw calls)) = none := by simpa using hfail 0 (by omega)
      simp only [parse_json_payload_aux, h0]
      have hrec := ih r (calls + 1) (some (pyClean (gw calls))) v (by omega)
        (fun i hi => by
          have := hfail (i + 1) (by omega)
          simpa [Nat.add_assoc, Nat.add_comm 1 i] using this)
        (by
          have : calls + 1 + k' = calls + (k' + 1) := by omega
          rw [this]; exact hs)
      rw [hrec]
      have e2 : calls + 1 + k' + 1 = calls + (k' + 1) + 1 := by omega
      rw [e2]

/-- C2: one decode operation issues at most `max_attempts` gateway calls; if
all attempts fail to parse, it fails with the decode error carrying the last
attempt's parse failure, making exactly `max_attempts` calls; if attempt
`k+1` is the first to parse, it succeeds with exactly `k+1` calls; and the
default budget is 2 total attempts. -/
theorem C2_retry_budget (gw : Nat → String) (m : Nat) (hm : 1 ≤ m) :
    (parse_json_payload gw m).2 ≤ m ∧
    ((∀ i, i < m → json_loads (pyClean (gw i)) = none) →
        parse_json_payload gw m = (Except.error (some (pyClean (gw (m - 1)))), m)) ∧
    (∀ k v, k < m → (∀ i, i < k → json_loads (pyClean (gw i)) = none) →
        json_loads (pyClean (gw k)) = some v →
        parse_json_payload gw m = (Except.ok v, k + 1)) ∧
    defaultMaxAttempts = 2 := by
  refine ⟨?_, ?_, ?_, rfl⟩
  · simpa using parse_json_payload_aux_calls_le gw m 0 none
  · intro hfail
    have h := parse_json_payload_aux_all_fail gw m 0 none hm
      (fun i hi => by simpa using hfail i hi)
    simpa [parse_json_payload] using h
  · intro k v hk hfail hs
    have h := parse_json_payload_aux_success gw k m 0 none v hk
      (fun i hi => by simpa using hfail i hi) (by simpa using hs)
    simpa [parse_json_payload] using h

/-- Witness for C2: garbage on attempt 1, valid JSON on attempt 2, within the
default budget of 2 ⇒ decode succeeds with exactly 2 calls. -/
theorem C2_retry_budget_witness :
    (1 : Nat) ≤ 2 ∧ parse_json_payload gwRetry 2 = (Except.ok (JsonVal.arr []), 2) := by
  refine ⟨by norm_num, ?_⟩
  exact (C2_retry_budget gwRetry 2 (by norm_num)).2.2.1 1 (JsonVal.arr []) (by norm_num)
    (fun i hi => by
      obtain rfl : i = 0 := by omega
      rfl)
    (by rfl)

/-- C1 counterexample: on the gateway text with a `json` language tag, the
cleaning step leaves the tag in place ("json\n[]\n"), every parse attempt
fails, and the entity extraction stage raises the decode failure after 2
calls instead of returning an empty sequence. -/
theorem C1_counterexample :
    extract_entities_run gwJsonFence =
      (Except.error (ExtractionError.decodeFailure (some "json\n[]\n")), 2) ∧
    (extract_entities_run gwJsonFence).1 ≠ Except.ok [] := by
  exact ⟨rfl, fun h => Except.noConfusion h⟩

/-- C1 amended: the decoder strips plain fences (no language tag): on
"```\n[]\n```" it parses an empty array, entity extraction returns an empty
sequence in one call, relationship extraction on the same empty payload and
empty entity input also returns an empty sequence, and assembling the empty
input yields the empty graph; with the `json` language tag the tag survives
stripping and the parse fails. -/
theorem C1_amended_plain_fences :
    pyClean "```json\n[]\n```" = "json\n[]\n" ∧
    json_loads "json\n[]\n" = none ∧
    pyClean "```\n[]\n```" = "\n[]\n" ∧
    extract_entities_run gwPlainFence = (Except.ok [], 1) ∧
    extract_relationships_run gwPlainFence [] = (Except.ok [], 1) ∧
    build_graph [] [] = ⟨[], []⟩ := by
  exact ⟨rfl, rfl, rfl, rfl, rfl, rfl⟩

/-- C8: when a decode attempt yields valid JSON whose top level is not an
array, the stage fails with the non-list payload error (a `ValueError` whose
message differs from every decode-failure message, modelled as a distinct
constructor), and the total number of gateway calls is exactly the number of
attempts used so far — no retry follows the non-array payload. -/
theorem C8_shape_error_terminal (gw : Nat → String) (ents : List Entity) (k : Nat)
    (v : JsonVal) (hk : k < defaultMaxAttempts)
    (hfail : ∀ i, i < k → json_loads (pyClean (gw i)) = none)
    (hv : json_loads (pyClean (gw k)) = some v)
    (hshape : ∀ items, v ≠ JsonVal.arr items) :
    extract_entities_run gw =
      (Except.error
        (ExtractionError.nonListPayload "Entity extraction returned a non-list payload."),
       k + 1) ∧
    extract_relationships_run gw ents =
      (Except.error
        (ExtractionError.nonListPayload "Relationship extraction returned a non-list payload."),
       k + 1) ∧
    (∀ (e : Option String) (m : String),
      ExtractionError.nonListPayload m ≠ ExtractionError.decodeFailure e) := by
  have hp : parse_json_payload gw defaultMaxAttempts = (Except.ok v, k + 1) := by
    have h := parse_json_payload_aux_success gw k defaultMaxAttempts 0 none v hk
      (fun i hi => by simpa using hfail i hi) (by simpa using hv)
    simpa [parse_json_payload] using h
  refine ⟨?_, ?_, fun e m h => ExtractionError.noConfusion h⟩
  · simp only [extract_entities_run, hp]
  · simp only [extract_relationships_run, hp]

/-- Witness for C8: the gateway returns the JSON object text on the first
attempt; both stages fail with their non-list payload error after exactly one
call. -/
theorem C8_shape_error_terminal_witness :
    extract_entities_run gwObjPayload =
      (Except.error
        (ExtractionError.nonListPayload "Entity extraction returned a non-list payload."), 1) ∧
    extract_relationships_run gwObjPayload [] =
      (Except.error
        (ExtractionError.nonListPayload "Relationship extraction returned a non-list payload."), 1) := by
  have h := C8_shape_error_terminal gwObjPayload [] 0 (JsonVal.obj [])
    (by norm_num [defaultMaxAttempts]) (fun i hi => by omega) (by rfl)
    (fun items h => JsonVal.noConfusion h)
  exact ⟨h.1, h.2.1⟩

/-! ## Lemmas about the coercion layer -/

theorem ensure_float_range (v : JsonVal) (d : ℚ) (h0 : 0 ≤ d) (h1 : d ≤ 1) :
    0 ≤ ensure_float v d ∧ ensure_float v d ≤ 1 := by
  cases h : pyFloat v with
  | none =>
      unfold ensure_float
      rw [h]
      exact ⟨h0, h1⟩
  | some q =>
      unfold ensure_float
      rw [h]
      show 0 ≤ pyMax 0 (pyMin 1 q) ∧ pyMax 0 (pyMin 1 q) ≤ 1
      unfold pyMax pyMin
      split_ifs <;> constructor <;> linarith

theorem ensure_float_num_in_range (q : ℚ) (h0 : 0 ≤ q) (h1 : q ≤ 1) (d : ℚ) :
    ensure_float (JsonVal.num q) d = q := by
  show pyMax 0 (pyMin 1 q) = q
  unfold pyMax pyMin
  split_ifs <;> linarith

theorem coerce_entities_aux_mem (raw : List Obj) :
    ∀ (seen : List (String × String)) (e : Entity),
      e ∈ coerce_entities_aux seen raw → ∃ item : Obj, e = candidateOf item := by
  induction raw with
  | nil => intro seen e h; simp [coerce_entities_aux] at h
  | cons item rest ih =>
      intro seen e h
      simp only [coerce_entities_aux] at h
      by_cases h1 : rawName item = ""
      · rw [if_pos h1] at h; exact ih seen e h
      · rw [if_neg h1] at h
        by_cases h2 : entityKeyOf (rawName item) (rawType item) ∈ seen
        · rw [if_pos h2] at h; exact ih seen e h
        · rw [if_neg h2] at h
          rcases List.mem_cons.mp h with h3 | h3
          · exact ⟨item, h3⟩
          · exact ih _ e h3

theorem coerce_entities_aux_key_notin (raw : List Obj) :
    ∀ (seen : List (String × String)) (e : Entity),
      e ∈ coerce_entities_aux seen raw → entityKey e ∉ seen := by
  induction raw with
  | nil => intro seen e h; simp [coerce_entities_aux] at h
  | cons item rest ih =>
      intro seen e h
      simp only [coerce_entities_aux] at h
      by_cases h1 : rawName item = ""
      · rw [if_pos h1] at h; exact ih seen e h
      · rw [if_neg h1] at h
        by_cases h2 : entityKeyOf (rawName item) (rawType item) ∈ seen
        · rw [if_pos h2] at h; exact ih seen e h
        · rw [if_neg h2] at h
          rcases List.mem_cons.mp h with h3 | h3
          · subst h3; exact h2
          · have h4 := ih _ e h3
            exact fun hc => h4 (List.mem_cons_of_mem _ hc)

theorem coerce_entities_aux_pairwise (raw : List Obj) :
    ∀ (seen : List (String × String)),
      (coerce_entities_aux seen raw).Pairwise (fun a b => entityKey a ≠ entityKey b) := by
  induction raw with
  | nil => intro seen; simp [coerce_entities_aux]
  | cons item rest ih =>
      intro seen
      simp only [coerce_entities_aux]
      by_cases h1 : rawName item = ""
      · rw [if_pos h1]; exact ih seen
      · rw [if_neg h1]
        by_cases h2 : entityKeyOf (rawName item) (rawType item) ∈ seen
        · rw [if_pos h2]; exact ih seen
        · rw [if_neg h2]
          refine List.Pairwise.cons ?_ (ih _)
          intro e he hc
          have h4 := coerce_entities_aux_key_notin rest _ e he
          exact h4 (hc ▸ List.mem_cons_self _ _)

theorem coerce_entities_aux_sublist (raw : List Obj) :
    ∀ (seen : List (String × String)),
      List.Sublist (coerce_entities_aux seen raw) (validCandidates raw) := by
  induction raw with
  | nil => intro seen; simp [coerce_entities_aux, validCandidates]
  | cons item rest ih =>
      intro seen
      by_cases h1 : rawName item = ""
      · have hl : coerce_entities_aux seen (item :: rest) = coerce_entities_aux seen rest := by
          simp [coerce_entities_aux, h1]
        have hr : validCandidates (item :: rest) = validCandidates rest := by
          simp [validCandidates, h1]
        rw [hl, hr]; exact ih seen
      · have hr : validCandidates (item :: rest) = candidateOf item :: validCandidates rest := by
          simp [validCandidates, h1]
        by_cases h2 : entityKeyOf (rawName item) (rawType item) ∈ seen
        · have hl : coerce_entities_aux seen (item :: rest) = coerce_entities_aux seen rest := by
            simp [coerce_entities_aux, h1, h2]
          rw [hl, hr]; exact List.Sublist.cons _ (ih seen)
        · have hl : coerce_entities_aux seen (item :: rest) =
              candidateOf item ::
                coerce_entities_aux (entityKeyOf (rawName item) (rawType item) :: seen) rest := by
            simp [coerce_entities_aux, h1, h2]
          rw [hl, hr]; exact List.Sublist.cons₂ _ (ih _)

theorem coerce_entities_aux_first (raw : List Obj) :
    ∀ (seen : List (String × String)) (i : Nat) (item : Obj),
      raw.get? i = some item → rawName item ≠ "" →
      entityKeyOf (rawName item) (rawType item) ∉ seen →
      (∀ j prev, j < i → raw.get? j = some prev → rawName prev ≠ "" →
        entityKeyOf (rawName prev) (rawType prev) ≠
          entityKeyOf (rawName item) (rawType item)) →
      candidateOf item ∈ coerce_entities_aux seen raw := by
  induction raw with
  | nil => intro seen i item h; simp at h
  | cons hd rest ih =>
      intro seen i item hget hname hseen hearlier
      cases i with
      | zero =>
          have : hd = item := by simpa using hget
          subst this
          have hl : coerce_entities_aux seen (hd :: rest) =
              candidateOf hd ::
                coerce_entities_aux (entityKeyOf (rawName hd) (rawType hd) :: seen) rest := by
            simp [coerce_entities_aux, hname, hseen]
          rw [hl]; exact List.mem_cons_self _ _
      | succ i' =>
          have hget' : rest.get? i' = some item := by simpa using hget
          have hshift : ∀ j prev, j < i' → rest.get? j = some prev → rawName prev ≠ "" →
              entityKeyOf (rawName prev) (rawType prev) ≠
                entityKeyOf (rawName item) (rawType item) := by
            intro j prev hj hg hn
            exact hearlier (j + 1) prev (by omega) (by simpa using hg) hn
          by_cases h1 : rawName hd = ""
          · have hl : coerce_entities_aux seen (hd :: rest) = coerce_entities_aux seen rest := by
              simp [coerce_entities_aux, h1]
            rw [hl]; exact ih seen i' item hget' hname hseen hshift
          · have hkey : entityKeyOf (rawName hd) (rawType hd) ≠
                entityKeyOf (rawName item) (rawType item) :=
              hearlier 0 hd (by omega) (by simp) h1
            by_cases h2 : entityKeyOf (rawName hd) (rawType hd) ∈ seen
            · have hl : coerce_entities_aux seen (hd :: rest) = coerce_entities_aux seen rest := by
                simp [coerce_entities_aux, h1, h2]
              rw [hl]; exact ih seen i' item hget' hname hseen hshift
            · have hl : coerce_entities_aux seen (hd :: rest) =
                  candidateOf hd ::
                    coerce_entities_aux (entityKeyOf (rawName hd) (rawType hd) :: seen) rest := by
                simp [coerce_entities_aux, h1, h2]
              rw [hl]
              refine List.mem_cons_of_mem _ (ih _ i' item hget' hname ?_ hshift)
              intro hc
              rcases List.mem_cons.mp hc with hc1 | hc2
              · exact hkey hc1.symm
              · exact hseen hc2

/-- C5 counterexample: a raw record whose `importance` is present and
numeric (0.5) also coerces to importance 0.5, so "equals 0.5 exactly when
the raw importance is absent or cannot be converted" fails in the only-if
direction. -/
theorem C5_counterexample :
    coerce_entities [recImportanceHalf] = [⟨"Alice", "", 1/2⟩] ∧
    objGet recImportanceHalf "importance" JsonVal.null = JsonVal.num (1/2) ∧
    pyFloat (objGet recImportanceHalf "importance" JsonVal.null) = some (1/2) := by
  refine ⟨?_, rfl, rfl⟩
  show [candidateOf recImportanceHalf] = [⟨"Alice", "", 1/2⟩]
  rw [show candidateOf recImportanceHalf =
      ⟨"Alice", "", ensure_float (JsonVal.num (1/2)) (1/2)⟩ from rfl]
  rw [ensure_float_num_in_range (1/2) (by norm_num) (by norm_num)]

/-- C5 amended: every coerced entity candidate has importance in [0,1]
regardless of the raw value, and the importance is 0.5 whenever the raw
importance is absent or cannot be converted to a number (it may also be 0.5
when the raw value converts and clamps to 0.5). -/
theorem C5_amended_importance_clamped :
    (∀ (raw : List Obj) (e : Entity), e ∈ coerce_entities raw →
        0 ≤ e.importance ∧ e.importance ≤ 1) ∧
    (∀ item : Obj, pyFloat (objGet item "importance" JsonVal.null) = none →
        (candidateOf item).importance = 1/2) := by
  constructor
  · intro raw e h
    obtain ⟨item, rfl⟩ := coerce_entities_aux_mem raw [] e h
    exact ensure_float_range _ _ (by norm_num) (by norm_num)
  · intro item h
    simp [candidateOf, ensure_float, h]

/-- Witness for C5 (amended): the clamped range at a concrete coerced
record, and the 0.5 default at a record with no `importance` field. -/
theorem C5_amended_importance_clamped_witness :
    (0 ≤ (candidateOf recImportanceHalf).importance ∧
      (candidateOf recImportanceHalf).importance ≤ 1) ∧
    (candidateOf recGhost).importance = 1/2 := by
  constructor
  · exact C5_amended_importance_clamped.1 [recImportanceHalf]
      (candidateOf recImportanceHalf) (List.Mem.head _)
  · exact C5_amended_importance_clamped.2 recGhost rfl

/-- C6: no two candidates in the output of entity coercion share the
`(name.lower(), type.lower())` key; the output is a subsequence of the raw
candidates in decoded order (order of first appearance is preserved); and a
raw record whose key is not hit by any earlier valid record is kept — the
first occurrence wins and later duplicates are dropped. -/
theorem C6_entity_dedup (raw : List Obj) :
    (coerce_entities raw).Pairwise (fun a b => entityKey a ≠ entityKey b) ∧
    List.Sublist (coerce_entities raw) (validCandidates raw) ∧
    (∀ (i : Nat) (item : Obj), raw.get? i = some item → rawName item ≠ "" →
      (∀ j prev, j < i → raw.get? j = some prev → rawName prev ≠ "" →
        entityKeyOf (rawName prev) (rawType prev) ≠
          entityKeyOf (rawName item) (rawType item)) →
      candidateOf item ∈ coerce_entities raw) := by
  refine ⟨coerce_entities_aux_pairwise raw [], coerce_entities_aux_sublist raw [], ?_⟩
  intro i item hget hname hearlier
  exact coerce_entities_aux_first raw [] i item hget hname (by simp) hearlier

/-- Witness for C6: the first (and only) record of a singleton input is
kept. -/
theorem C6_entity_dedup_witness :
    candidateOf recImportanceHalf ∈ coerce_entities [recImportanceHalf] :=
  (C6_entity_dedup [recImportanceHalf]).2.2 0 recImportanceHalf rfl (by decide)
    (fun j prev hj => absurd hj (by omega))

theorem coerce_relationships_mem (raw : List Obj) (ents : List Entity) :
    ∀ r ∈ coerce_relationships raw ents,
      ∃ item : Obj, r = relationshipOf item ∧
        rawSource item ∈ entityNames ents ∧ rawTarget item ∈ entityNames ents ∧
        rawSource item ≠ "" ∧ rawTarget item ≠ "" := by
  induction raw with
  | nil => intro r h; simp [coerce_relationships] at h
  | cons item rest ih =>
      intro r h
      simp only [coerce_relationships] at h
      by_cases hc : rawSource item = "" ∨ rawTarget item = "" ∨
          rawSource item ∉ entityNames ents ∨ rawTarget item ∉ entityNames ents
      · rw [if_pos hc] at h; exact ih r h
      · rw [if_neg hc] at h
        push_neg at hc
        rcases List.mem_cons.mp h with h1 | h1
        · exact ⟨item, h1, hc.2.2.1, hc.2.2.2, hc.1, hc.2.1⟩
        · exact ih r h1

theorem coerce_relationships_keeps (ents : List Entity) :
    ∀ (raw : List Obj), ∀ item ∈ raw, rawSource item ≠ "" → rawTarget item ≠ "" →
      rawSource item ∈ entityNames ents → rawTarget item ∈ entityNames ents →
      relationshipOf item ∈ coerce_relationships raw ents := by
  intro raw
  induction raw with
  | nil => intro item h; simp at h
  | cons hd rest ih =>
      intro item hmem h1 h2 h3 h4
      rcases List.mem_cons.mp hmem with rfl | hmem'
      · have hc : ¬(rawSource item = "" ∨ rawTarget item = "" ∨
            rawSource item ∉ entityNames ents ∨ rawTarget item ∉ entityNames ents) := by
          push_neg; exact ⟨h1, h2, h3, h4⟩
        simp only [coerce_relationships]
        rw [if_neg hc]
        exact List.mem_cons_self _ _
      · simp only [coerce_relationships]
        by_cases hc : rawSource hd = "" ∨ rawTarget hd = "" ∨
            rawSource hd ∉ entityNames ents ∨ rawTarget hd ∉ entityNames ents
        · rw [if_pos hc]; exact ih item hmem' h1 h2 h3 h4
        · rw [if_neg hc]; exact List.mem_cons_of_mem _ (ih item hmem' h1 h2 h3 h4)

/-- C3 counterexample: a decoded relationship record with non-empty trimmed
fields whose target names no known entity does NOT appear in the output of
relationship coercion — it is dropped already at extraction, not only at
assembly. -/
theorem C3_counterexample :
    rawSource recGhost = "Alice" ∧ rawTarget recGhost = "Ghostville" ∧
    rawRelationType recGhost = "knows" ∧
    coerce_relationships [recGhost] [entAlice] = [] :=
  ⟨rfl, rfl, rfl, rfl⟩

/-- C3 amended: relationship coercion validates shape AND performs
referential filtering against the entity-name set: every output record's
source and target are names of known entities, any relationship value with
an unknown endpoint never appears in the output, and a raw record with
non-empty trimmed endpoints that both name known entities is kept. -/
theorem C3_amended_referential_filtering (raw : List Obj) (ents : List Entity) :
    (∀ r ∈ coerce_relationships raw ents,
        r.source ∈ entityNames ents ∧ r.target ∈ entityNames ents) ∧
    (∀ r : Relationship, (r.source ∉ entityNames ents ∨ r.target ∉ entityNames ents) →
        r ∉ coerce_relationships raw ents) ∧
    (∀ item ∈ raw, rawSource item ≠ "" → rawTarget item ≠ "" →
        rawSource item ∈ entityNames ents → rawTarget item ∈ entityNames ents →
        relationshipOf item ∈ coerce_relationships raw ents) := by
  have h1 : ∀ r ∈ coerce_relationships raw ents,
      r.source ∈ entityNames ents ∧ r.target ∈ entityNames ents := by
    intro r h
    obtain ⟨item, rfl, hs, ht, _, _⟩ := coerce_relationships_mem raw ents r h
    exact ⟨hs, ht⟩
  refine ⟨h1, ?_, coerce_relationships_keeps ents raw⟩
  intro r hor h
  rcases hor with hno | hno
  · exact hno (h1 r h).1
  · exact hno (h1 r h).2

/-- Witness for C3 (amended): a relationship naming the unknown "Ghost" is
not in the output; the record with known endpoints is kept. -/
theorem C3_amended_referential_filtering_witness :
    (Relationship.mk "Ghost" "Alice" "x" 1 ∉ coerce_relationships [recGhost] [entAlice]) ∧
    relationshipOf recWsLabel ∈ coerce_relationships [recWsLabel] [entAlice, entBob] := by
  constructor
  · exact (C3_amended_referential_filtering [recGhost] [entAlice]).2.1
      (Relationship.mk "Ghost" "Alice" "x" 1) (Or.inl (by decide))
  · exact (C3_amended_referential_filtering [recWsLabel] [entAlice, entBob]).2.2
      recWsLabel (List.Mem.head _) (by decide) (by decide) (by decide) (by decide)

/-- C7 counterexample: a decoded record with valid endpoints and a
whitespace-only relationship label is NOT rejected: it appears in the output
with the default label "related" (and its weight 0.7 preserved). -/
theorem C7_counterexample :
    rawRelationType recWsLabel = "" ∧
    coerce_relationships [recWsLabel] [entAlice, entBob] =
      [⟨"Alice", "Bob", "related", 7/10⟩] := by
  refine ⟨rfl, ?_⟩
  show [relationshipOf recWsLabel] = [⟨"Alice", "Bob", "related", 7/10⟩]
  rw [show relationshipOf recWsLabel =
      ⟨"Alice", "Bob", "related", ensure_float (JsonVal.num (7/10)) (1/2)⟩ from rfl]
  rw [ensure_float_num_in_range (7/10) (by norm_num) (by norm_num)]

/-- C7 amended: relationship coercion accepts a record iff its trimmed
source and target are non-empty and both name a known entity; the
relationship label is never a reason for rejection — an empty or
whitespace-only label is replaced by "related" — and the weight is clamped
into [0,1] with 0.5 as the default for absent or non-numeric values. -/
theorem C7_amended_shape_coercion (item : Obj) (rest : List Obj) (ents : List Entity) :
    (0 ≤ (relationshipOf item).weight ∧ (relationshipOf item).weight ≤ 1) ∧
    (pyFloat (objGet item "weight" JsonVal.null) = none →
        (relationshipOf item).weight = 1/2) ∧
    (rawRelationType item = "" → (relationshipOf item).relation_type = "related") ∧
    ((rawSource item = "" ∨ rawTarget item = "" ∨ rawSource item ∉ entityNames ents ∨
        rawTarget item ∉ entityNames ents) →
      coerce_relationships (item :: rest) ents = coerce_relationships rest ents) ∧
    ((rawSource item ≠ "" ∧ rawTarget item ≠ "" ∧ rawSource item ∈ entityNames ents ∧
        rawTarget item ∈ entityNames ents) →
      coerce_relationships (item :: rest) ents =
        relationshipOf item :: coerce_relationships rest ents) := by
  refine ⟨ensure_float_range _ _ (by norm_num) (by norm_num), ?_, ?_, ?_, ?_⟩
  · intro h; simp [relationshipOf, ensure_float, h]
  · intro h; simp [relationshipOf, h]
  · intro h
    simp only [coerce_relationships]
    rw [if_pos h]
  · intro h
    have hc : ¬(rawSource item = "" ∨ rawTarget item = "" ∨
        rawSource item ∉ entityNames ents ∨ rawTarget item ∉ entityNames ents) := by
      push_neg; exact h
    simp only [coerce_relationships]
    rw [if_neg hc]

/-- Witness for C7 (amended): the record with the whitespace-only label is
accepted with label "related". -/
theorem C7_amended_shape_coercion_witness :
    coerce_relationships [recWsLabel] [entAlice, entBob] =
      relationshipOf recWsLabel :: coerce_relationships [] [entAlice, entBob] ∧
    (relationshipOf recWsLabel).relation_type = "related" :=
  ⟨(C7_amended_shape_coercion recWsLabel [] [entAlice, entBob]).2.2.2.2
      ⟨by decide, by decide, by decide, by decide⟩,
   (C7_amended_shape_coercion recWsLabel [] [entAlice, entBob]).2.2.1 rfl⟩

/-- C10: endpoint matching is exact and case-sensitive: every record in the
output of relationship coercion has its source and target character-for-
character equal to the (untouched-case) name of some entity, and a raw
record whose stripped source or target is not literally in the entity-name
set is dropped — even when it differs from an entity name only in letter
case. -/
theorem C10_exact_endpoint_matching (ents : List Entity) :
    (∀ (raw : List Obj) (r : Relationship), r ∈ coerce_relationships raw ents →
        (∃ e ∈ ents, e.name = r.source) ∧ (∃ e ∈ ents, e.name = r.target)) ∧
    (∀ (item : Obj) (rest : List Obj),
        (rawSource item ∉ entityNames ents ∨ rawTarget item ∉ entityNames ents) →
        coerce_relationships (item :: rest) ents = coerce_relationships rest ents) := by
  constructor
  · intro raw r h
    obtain ⟨item, rfl, hs, ht, _, _⟩ := coerce_relationships_mem raw ents r h
    constructor
    · obtain ⟨e, he, hname⟩ := List.mem_map.mp hs
      exact ⟨e, he, hname⟩
    · obtain ⟨e, he, hname⟩ := List.mem_map.mp ht
      exact ⟨e, he, hname⟩
  · intro item rest h
    simp only [coerce_relationships]
    refine if_pos ?_
    rcases h with h | h
    exacts [Or.inr (Or.inr (Or.inl h)), Or.inr (Or.inr (Or.inr h))]

/-- Witness for C10: the record whose source "alice" differs from the
entity name "Alice" only in case is dropped, although the lowercased names
agree. -/
theorem C10_exact_endpoint_matching_witness :
    coerce_relationships [recLowerAlice] [entAlice, entBob] = [] ∧
    pyLower (rawSource recLowerAlice) = pyLower "Alice" := by
  refine ⟨?_, rfl⟩
  exact (C10_exact_endpoint_matching [entAlice, entBob]).2 recLowerAlice []
    (Or.inl (by decide))

/-! ## Lemmas about graph assembly -/

theorem hasNode_iff (g : DiGraph) (n : String) :
    hasNode g n = true ↔ n ∈ nodeKeys g := by
  simp [hasNode, nodeKeys, List.any_eq_true, List.mem_map]

theorem map_fst_update {α β : Type} [DecidableEq α] (l : List (α × β)) (k : α) (v : β) :
    (l.map (fun e => if e.1 = k then (e.1, v) else e)).map Prod.fst = l.map Prod.fst := by
  induction l with
  | nil => rfl
  | cons e rest ih =>
      by_cases h : e.1 = k <;> simp [h, ih]

theorem add_node_edges (g : DiGraph) (nm : String) (a : NodeAttrs) :
    (add_node g nm a).edges = g.edges := by
  unfold add_node
  split <;> rfl

theorem nodeKeys_add_node_mem (g : DiGraph) (nm : String) (a : NodeAttrs) (n : String) :
    n ∈ nodeKeys (add_node g nm a) ↔ n ∈ nodeKeys g ∨ n = nm := by
  unfold add_node
  split
  · next h =>
      rw [hasNode_iff] at h
      unfold nodeKeys
      simp only [map_fst_update]
      constructor
      · exact Or.inl
      · rintro (hn | rfl)
        · exact hn
        · exact h
  · unfold nodeKeys
    simp

theorem buildNodeStep_edges (g : DiGraph) (e : Entity) :
    (buildNodeStep g e).edges = g.edges :=
  add_node_edges g e.name _

theorem foldl_buildNodeStep_edges (es : List Entity) :
    ∀ g : DiGraph, (es.foldl buildNodeStep g).edges = g.edges := by
  induction es with
  | nil => intro g; rfl
  | cons e rest ih =>
      intro g
      simp only [List.foldl_cons]
      rw [ih, buildNodeStep_edges]

theorem nodeKeys_foldl_buildNodeStep (es : List Entity) :
    ∀ (g : DiGraph) (n : String),
      n ∈ nodeKeys (es.foldl buildNodeStep g) ↔ n ∈ nodeKeys g ∨ n ∈ es.map Entity.name := by
  induction es with
  | nil => intro g n; simp
  | cons e rest ih =>
      intro g n
      simp only [List.foldl_cons, List.map_cons, List.mem_cons, buildNodeStep]
      rw [ih, nodeKeys_add_node_mem]
      tauto

theorem ensureNode_of_hasNode (g : DiGraph) (n : String) (h : hasNode g n = true) :
    ensureNode g n = g := by
  unfold ensureNode
  rw [if_pos h]

theorem ensureNode_edges (g : DiGraph) (n : String) :
    (ensureNode g n).edges = g.edges := by
  unfold ensureNode
  split <;> rfl

theorem add_edge_nodes (g : DiGraph) (s t : String) (a : EdgeAttrs)
    (hs : hasNode g s = true) (ht : hasNode g t = true) :
    (add_edge g s t a).nodes = g.nodes := by
  unfold add_edge
  rw [ensureNode_of_hasNode g s hs, ensureNode_of_hasNode g t ht]
  dsimp only
  split <;> rfl

theorem buildEdgeStep_nodes (g : DiGraph) (r : Relationship) :
    (buildEdgeStep g r).nodes = g.nodes := by
  unfold buildEdgeStep
  split
  · rfl
  · next h =>
      push_neg at h
      exact add_edge_nodes g r.source r.target _ h.1 h.2

theorem hasNode_buildEdgeStep (g : DiGraph) (r : Relationship) (n : String) :
    hasNode (buildEdgeStep g r) n = hasNode g n := by
  unfold hasNode
  rw [buildEdgeStep_nodes]

theorem foldl_buildEdgeStep_nodes (rs : List Relationship) :
    ∀ g : DiGraph, (rs.foldl buildEdgeStep g).nodes = g.nodes := by
  induction rs with
  | nil => intro g; rfl
  | cons r rest ih =>
      intro g
      simp only [List.foldl_cons]
      rw [ih, buildEdgeStep_nodes]

theorem edgeKeys_add_edge_mem (g : DiGraph) (s t : String) (a : EdgeAttrs) (k : String × String) :
    k ∈ edgeKeys (add_edge g s t a) → k ∈ edgeKeys g ∨ k = (s, t) := by
  unfold add_edge edgeKeys
  simp only [ensureNode_edges]
  split
  · intro h
    rw [map_fst_update] at h
    exact Or.inl h
  · intro h
    simp only [List.map_append, List.mem_append] at h
    rcases h with h | h
    · exact Or.inl h
    · simp at h
      exact Or.inr h

theorem buildEdgeStep_edges_ok (g : DiGraph) (r : Relationship)
    (h : ∀ k ∈ edgeKeys g, k.1 ∈ nodeKeys g ∧ k.2 ∈ nodeKeys g) :
    ∀ k ∈ edgeKeys (buildEdgeStep g r),
      k.1 ∈ nodeKeys (buildEdgeStep g r) ∧ k.2 ∈ nodeKeys (buildEdgeStep g r) := by
  have hnodes : nodeKeys (buildEdgeStep g r) = nodeKeys g := by
    unfold nodeKeys
    rw [buildEdgeStep_nodes]
  rw [hnodes]
  intro k hk
  unfold buildEdgeStep at hk
  by_cases hg : ¬ hasNode g r.source = true ∨ ¬ hasNode g r.target = true
  · rw [if_pos hg] at hk
    exact h k hk
  · rw [if_neg hg] at hk
    push_neg at hg
    rcases edgeKeys_add_edge_mem g r.source r.target _ k hk with hk1 | rfl
    · exact h k hk1
    · exact ⟨(hasNode_iff g r.source).mp hg.1, (hasNode_iff g r.target).mp hg.2⟩

theorem foldl_buildEdgeStep_edges_ok (rs : List Relationship) :
    ∀ (g : DiGraph), (∀ k ∈ edgeKeys g, k.1 ∈ nodeKeys g ∧ k.2 ∈ nodeKeys g) →
      ∀ k ∈ edgeKeys (rs.foldl buildEdgeStep g),
        k.1 ∈ nodeKeys (rs.foldl buildEdgeStep g) ∧ k.2 ∈ nodeKeys (rs.foldl buildEdgeStep g) := by
  induction rs with
  | nil => intro g h; exact h
  | cons r rest ih =>
      intro g h
      simp only [List.foldl_cons]
      exact ih (buildEdgeStep g r) (buildEdgeStep_edges_ok g r h)

/-- C4: every edge of `build_graph` has both endpoints among the nodes, the
node set is exactly the set of entity names, and a relationship record with
an unknown endpoint yields no edge for its `(source, target)` key. -/
theorem C4_referential_integrity (es : List Entity) (rs : List Relationship) :
    (∀ k ∈ edgeKeys (build_graph es rs),
        k.1 ∈ nodeKeys (build_graph es rs) ∧ k.2 ∈ nodeKeys (build_graph es rs)) ∧
    (∀ n : String, n ∈ nodeKeys (build_graph es rs) ↔ n ∈ es.map Entity.name) ∧
    (∀ r ∈ rs, (r.source ∉ es.map Entity.name ∨ r.target ∉ es.map Entity.name) →
        edgeLookup (build_graph es rs) (r.source, r.target) = none) := by
  have hkeys : ∀ n : String, n ∈ nodeKeys (build_graph es rs) ↔ n ∈ es.map Entity.name := by
    intro n
    unfold build_graph
    have h1 : nodeKeys (rs.foldl buildEdgeStep (es.foldl buildNodeStep ⟨[], []⟩)) =
        nodeKeys (es.foldl buildNodeStep ⟨[], []⟩) := by
      unfold nodeKeys
      rw [foldl_buildEdgeStep_nodes]
    rw [h1, nodeKeys_foldl_buildNodeStep]
    simp [nodeKeys]
  have hok : ∀ k ∈ edgeKeys (build_graph es rs),
      k.1 ∈ nodeKeys (build_graph es rs) ∧ k.2 ∈ nodeKeys (build_graph es rs) := by
    unfold build_graph
    apply foldl_buildEdgeStep_edges_ok
    intro k hk
    unfold edgeKeys at hk
    rw [foldl_buildNodeStep_edges] at hk
    simp at hk
  refine ⟨hok, hkeys, ?_⟩
  intro r hr hno
  cases hl : edgeLookup (build_graph es rs) (r.source, r.target) with
  | none => rfl
  | some a =>
      exfalso
      unfold edgeLookup at hl
      rw [Option.map_eq_some'] at hl
      obtain ⟨e, he, rfl⟩ := hl
      have hmem : e ∈ (build_graph es rs).edges := List.mem_of_find?_eq_some he
      have hp : e.1 = (r.source, r.target) := by
        have := List.find?_some he
        simpa using this
      have hkmem : e.1 ∈ edgeKeys (build_graph es rs) := by
        unfold edgeKeys
        exact List.mem_map.mpr ⟨e, hmem, rfl⟩
      have hends := hok e.1 hkmem
      rw [hp] at hends
      rcases hno with hno | hno
      · exact hno ((hkeys r.source).mp hends.1)
      · exact hno ((hkeys r.target).mp hends.2)

/-- Witness for C4 at the spec's assembly scenario: the record targeting the
unknown "Ghostville" produces no edge, and "Ghostville" is not a node. -/
theorem C4_referential_integrity_witness :
    edgeLookup (build_graph [entAlice, entAcme] [relFounded, relBasedIn])
      ("Acme Corp", "Ghostville") = none ∧
    ¬ "Ghostville" ∈ nodeKeys (build_graph [entAlice, entAcme] [relFounded, relBasedIn]) := by
  constructor
  · exact (C4_referential_integrity [entAlice, entAcme] [relFounded, relBasedIn]).2.2
      relBasedIn (List.Mem.tail _ (List.Mem.head _)) (Or.inr (by decide))
  · intro h
    have := (C4_referential_integrity [entAlice, entAcme] [relFounded, relBasedIn]).2.1
      "Ghostville" |>.mp h
    exact absurd this (by decide)

theorem lookup_update {α β : Type} [DecidableEq α] (l : List (α × β)) (k : α) (v : β) :
    (l.map (fun e => if e.1 = k then (e.1, v) else e)).find? (fun e => e.1 = k) =
      (l.find? (fun e => e.1 = k)).map (fun e => (e.1, v)) := by
  induction l with
  | nil => rfl
  | cons e rest ih =>
      by_cases he : e.1 = k
      · simp only [List.map_cons, if_pos he]
        rw [List.find?_cons_of_pos _ (by simpa using he),
            List.find?_cons_of_pos _ (by simpa using he)]
        rfl
      · simp only [List.map_cons, if_neg he]
        rw [List.find?_cons_of_neg _ (by simpa using he),
            List.find?_cons_of_neg _ (by simpa using he)]
        exact ih

theorem lookup_update_ne {α β : Type} [DecidableEq α] (l : List (α × β)) (k k' : α) (v : β)
    (hne : k ≠ k') :
    (l.map (fun e => if e.1 = k' then (e.1, v) else e)).find? (fun e => e.1 = k) =
      l.find? (fun e => e.1 = k) := by
  induction l with
  | nil => rfl
  | cons e rest ih =>
      by_cases he : e.1 = k'
      · have hek : ¬ e.1 = k := by rw [he]; exact fun hc => hne hc.symm
        simp only [List.map_cons, if_pos he]
        rw [List.find?_cons_of_neg _ (by simpa using hek),
            List.find?_cons_of_neg _ (by simpa using hek)]
        exact ih
      · simp only [List.map_cons, if_neg he]
        by_cases hek : e.1 = k
        · rw [List.find?_cons_of_pos _ (by simpa using hek),
              List.find?_cons_of_pos _ (by simpa using hek)]
        · rw [List.find?_cons_of_neg _ (by simpa using hek),
              List.find?_cons_of_neg _ (by simpa using hek)]
          exact ih

theorem edgeLookup_add_edge_self (g : DiGraph) (s t : String) (a : EdgeAttrs) :
    edgeLookup (add_edge g s t a) (s, t) = some a := by
  unfold add_edge edgeLookup
  simp only [ensureNode_edges]
  split
  · next h =>
      rw [lookup_update]
      rw [List.any_eq_true] at h
      obtain ⟨e, he, hp⟩ := h
      have hfind : (g.edges.find? (fun e => e.1 = (s, t))).isSome = true := by
        cases hf : g.edges.find? (fun e => e.1 = (s, t)) with
        | some x => rfl
        | none =>
            rw [List.find?_eq_none] at hf
            exact absurd hp (hf e he)
      obtain ⟨x, hx⟩ := Option.isSome_iff_exists.mp hfind
      rw [hx]
      rfl
  · next h =>
      have hnone : g.edges.find? (fun e => e.1 = (s, t)) = none := by
        rw [List.find?_eq_none]
        intro x hx hp
        exact h (List.any_eq_true.mpr ⟨x, hx, hp⟩)
      rw [List.find?_append, hnone]
      simp

theorem edgeLookup_add_edge_ne (g : DiGraph) (s t : String) (a : EdgeAttrs)
    (k : String × String) (hne : k ≠ (s, t)) :
    edgeLookup (add_edge g s t a) k = edgeLookup g k := by
  unfold add_edge edgeLookup
  simp only [ensureNode_edges]
  split
  · rw [lookup_update_ne _ _ _ _ hne]
  · rw [List.find?_append]
    have htail : ([((s, t), a)].find? (fun e => e.1 = k)) = none := by
      rw [List.find?_eq_none]
      intro x hx
      simp at hx
      subst hx
      simpa using fun hc => hne hc.symm
    rw [htail]
    cases g.edges.find? (fun e => e.1 = k) <;> rfl

theorem getLast?_cons_of_some {α : Type} (x y : α) (l : List α)
    (h : l.getLast? = some y) : (x :: l).getLast? = some y := by
  cases l with
  | nil => simp at h
  | cons a l' =>
      rw [List.getLast?_cons_cons]
      exact h

theorem getLast?_cons_of_none {α : Type} (x : α) (l : List α)
    (h : l.getLast? = none) : (x :: l).getLast? = some x := by
  rw [List.getLast?_eq_none_iff] at h
  subst h
  exact List.getLast?_singleton x

theorem lookup_buildEdgeStep_match (g : DiGraph) (r : Relationship) (s t : String)
    (hs : hasNode g s = true) (ht : hasNode g t = true)
    (h1 : r.source = s) (h2 : r.target = t) :
    edgeLookup (buildEdgeStep g r) (s, t) = some ⟨r.relation_type, r.weight⟩ := by
  unfold buildEdgeStep
  rw [if_neg]
  · rw [h1, h2]
    exact edgeLookup_add_edge_self g s t _
  · rw [h1, h2]
    push_neg
    exact ⟨hs, ht⟩

theorem lookup_buildEdgeStep_ne (g : DiGraph) (r : Relationship) (k : String × String)
    (hne : (r.source, r.target) ≠ k) :
    edgeLookup (buildEdgeStep g r) k = edgeLookup g k := by
  unfold buildEdgeStep
  split
  · rfl
  · exact edgeLookup_add_edge_ne g r.source r.target _ k (fun hc => hne hc.symm)

theorem lookup_foldl_buildEdgeStep (s t : String) (rs : List Relationship) :
    ∀ (g : DiGraph), hasNode g s = true → hasNode g t = true →
      edgeLookup (rs.foldl buildEdgeStep g) (s, t) =
        match (rs.filter (fun r => decide (r.source = s) && decide (r.target = t))).getLast? with
        | some r => some ⟨r.relation_type, r.weight⟩
        | none => edgeLookup g (s, t) := by
  induction rs with
  | nil => intro g hs ht; rfl
  | cons r rest ih =>
      intro g hs ht
      simp only [List.foldl_cons, List.filter_cons]
      by_cases hr : r.source = s ∧ r.target = t
      · rw [if_pos (by simp [hr.1, hr.2])]
        have hs' : hasNode (buildEdgeStep g r) s = true := by
          rw [hasNode_buildEdgeStep]; exact hs
        have ht' : hasNode (buildEdgeStep g r) t = true := by
          rw [hasNode_buildEdgeStep]; exact ht
        rw [ih (buildEdgeStep g r) hs' ht']
        cases hl : (rest.filter (fun r' => decide (r'.source = s) && decide (r'.target = t))).getLast? with
        | some r' => rw [getLast?_cons_of_some r r' _ hl]
        | none =>
            rw [getLast?_cons_of_none r _ hl]
            exact lookup_buildEdgeStep_match g r s t hs ht hr.1 hr.2
      · rw [if_neg (by simpa [Bool.and_eq_true] using hr)]
        have hne : (r.source, r.target) ≠ (s, t) := by
          intro hc
          rw [Prod.mk.injEq] at hc
          exact hr hc
        rw [ih (buildEdgeStep g r) (by rw [hasNode_buildEdgeStep]; exact hs)
            (by rw [hasNode_buildEdgeStep]; exact ht)]
        cases (rest.filter (fun r' => decide (r'.source = s) && decide (r'.target = t))).getLast? with
        | some r' => rfl
        | none => exact lookup_buildEdgeStep_ne g r (s, t) hne

theorem edgeKeys_nodup_add_edge (g : DiGraph) (s t : String) (a : EdgeAttrs)
    (h : (edgeKeys g).Nodup) : (edgeKeys (add_edge g s t a)).Nodup := by
  unfold add_edge edgeKeys
  simp only [ensureNode_edges]
  split
  · rw [map_fst_update]
    exact h
  · next hno =>
      rw [List.map_append, List.nodup_append]
      refine ⟨h, by simp, ?_⟩
      intro x hx hx2
      simp at hx2
      subst hx2
      apply hno
      rw [List.any_eq_true]
      obtain ⟨e, he, hfst⟩ := List.mem_map.mp hx
      exact ⟨e, he, by simpa using hfst⟩

theorem buildEdgeStep_edgeKeys_nodup (g : DiGraph) (r : Relationship)
    (h : (edgeKeys g).Nodup) : (edgeKeys (buildEdgeStep g r)).Nodup := by
  unfold buildEdgeStep
  split
  · exact h
  · exact edgeKeys_nodup_add_edge g r.source r.target _ h

theorem foldl_edgeKeys_nodup (rs : List Relationship) :
    ∀ g : DiGraph, (edgeKeys g).Nodup → (edgeKeys (rs.foldl buildEdgeStep g)).Nodup := by
  induction rs with
  | nil => intro g h; exact h
  | cons r rest ih =>
      intro g h
      simp only [List.foldl_cons]
      exact ih (buildEdgeStep g r) (buildEdgeStep_edgeKeys_nodup g r h)

theorem count_key_one {α β : Type} [DecidableEq α] :
    ∀ (l : List (α × β)) (k : α), (l.map Prod.fst).Nodup →
      (l.find? (fun e => e.1 = k)).isSome = true →
      (l.filter (fun e => e.1 = k)).length = 1 := by
  intro l
  induction l with
  | nil => intro k h hf; simp at hf
  | cons e rest ih =>
      intro k h hf
      simp only [List.map_cons, List.nodup_cons] at h
      by_cases he : e.1 = k
      · rw [List.filter_cons, if_pos (by simpa using he)]
        have hrest : rest.filter (fun x => decide (x.1 = k)) = [] := by
          rw [List.filter_eq_nil_iff]
          intro x hx hpx
          apply h.1
          have hxk : x.1 = k := by simpa using hpx
          exact List.mem_map.mpr ⟨x, hx, by rw [hxk, he]⟩
        rw [hrest]
        rfl
      · rw [List.filter_cons, if_neg (by simpa using he)]
        apply ih k h.2
        rw [List.find?_cons_of_neg _ (by simpa using he)] at hf
        exact hf

/-- C9: when several admissible relationship records share the same ordered
`(source, target)` pair, the assembled graph holds exactly one edge for that
pair, carrying the label and weight of the record occurring last in input
order. -/
theorem C9_edge_overwrite (es : List Entity) (rs : List Relationship) (s t : String)
    (r : Relationship)
    (hs : s ∈ es.map Entity.name) (ht : t ∈ es.map Entity.name)
    (hlast : (rs.filter (fun r' => decide (r'.source = s) && decide (r'.target = t))).getLast?
      = some r) :
    edgeLookup (build_graph es rs) (s, t) = some ⟨r.relation_type, r.weight⟩ ∧
    edgeCount (build_graph es rs) (s, t) = 1 := by
  have hg0s : hasNode (es.foldl buildNodeStep ⟨[], []⟩) s = true := by
    rw [hasNode_iff, nodeKeys_foldl_buildNodeStep]
    exact Or.inr hs
  have hg0t : hasNode (es.foldl buildNodeStep ⟨[], []⟩) t = true := by
    rw [hasNode_iff, nodeKeys_foldl_buildNodeStep]
    exact Or.inr ht
  have hlook : edgeLookup (build_graph es rs) (s, t) = some ⟨r.relation_type, r.weight⟩ := by
    unfold build_graph
    rw [lookup_foldl_buildEdgeStep s t rs _ hg0s hg0t, hlast]
  refine ⟨hlook, ?_⟩
  have hnodup : (edgeKeys (build_graph es rs)).Nodup := by
    unfold build_graph
    apply foldl_edgeKeys_nodup
    unfold edgeKeys
    rw [foldl_buildNodeStep_edges]
    simp
  have hfindsome : ((build_graph es rs).edges.find? (fun e => e.1 = (s, t))).isSome = true := by
    cases hf : (build_graph es rs).edges.find? (fun e => e.1 = (s, t)) with
    | some x => rfl
    | none =>
        unfold edgeLookup at hlook
        rw [hf] at hlook
        simp at hlook
  unfold edgeCount
  exact count_key_one _ _ hnodup hfindsome

/-- Witness for C9: two admissible records on ("Alice", "Acme Corp"); the
assembled graph has exactly one edge for the pair, with the later record's
label and weight. -/
theorem C9_edge_overwrite_witness :
    edgeLookup (build_graph [entAlice, entAcme] [relFounded, relAdvises])
      ("Alice", "Acme Corp") = some ⟨"advises", 3/5⟩ ∧
    edgeCount (build_graph [entAlice, entAcme] [relFounded, relAdvises])
      ("Alice", "Acme Corp") = 1 :=
  C9_edge_overwrite [entAlice, entAcme] [relFounded, relAdvises] "Alice" "Acme Corp"
    relAdvises (by decide) (by decide) rfl
